import Mathlib

/-!
Verification of the Auth Hub redirect/session-relay core (src/src/App.tsx).

Modelling conventions (shallow embedding):
* JavaScript strings are modelled as lists of natural numbers (`Str`), one
  entry per UTF-16 code unit; bytes obtained by percent-decoding are kept as
  code units below 256 (byte-transparent model).  ASCII case conversion only.
* The WHATWG URL parser is modelled by a simplified absolute-URL parser
  `parseUrl`: `scheme "://" authority path? ("?" query)? ("#" fragment)?`.
  The authority is kept verbatim (lower-cased); ports, credentials, IDNA,
  path normalisation and backslash handling are not modelled.  `u.hash` and
  `u.search` keep their leading `#` and `?`, as in JavaScript.
* `URLSearchParams` is modelled by `parseForm` / `serializeForm`
  (application/x-www-form-urlencoded: split on `&` and first `=`, `+` as
  space, `%XX` percent escapes; the serializer percent-encodes every byte
  outside the form-safe set, expanding code points at or above 128 through
  UTF-8).  `decodeURIComponent` is `pctDecodeOpt`, which fails (returns
  `none`, the JS exception) on a malformed percent escape; UTF-8 validity
  checking of the decoded bytes is not modelled.
* The React component state (`redirecting`, `booting`) is modelled as an
  explicit record, and effect bodies as pure functions from the environment
  and the state their closure sees to a new state plus a list of emitted
  actions (sign-out, storage clearing, `location.replace`).  The boot
  effect runs once (its dependencies are stable within a page load), so the
  boot body and the session-change callback are closures over the
  mount-render state: their reads of `redirecting` see the value captured
  at mount, while their setState writes land on the live component state
  (`runEventsReact`).  Inside these handlers `setRedirecting` is only ever
  called with true and `setBooting` only with false, so the live state is
  the pointwise join of the writes.  Each async handler body runs to
  completion (single-threaded event model); the `mounted` teardown flag is
  not modelled.
-/

namespace AuthHub

/-- JavaScript string: list of UTF-16 code units. -/
abbrev Str := List Nat

/-- Code units of a Lean string literal (all source literals are ASCII). -/
def str (s : String) : Str := s.data.map Char.toNat

/-- ASCII lower-casing of one code unit (String.prototype.toLowerCase on the
ASCII range; full Unicode case mapping is not modelled). -/
def lowerChar (c : Nat) : Nat := if 65 ≤ c ∧ c ≤ 90 then c + 32 else c

/-- ASCII lower-casing of a string. -/
def lowerStr (s : Str) : Str := s.map lowerChar

/-- Test whether the second list begins with the first (String.startsWith). -/
def leads : Str → Str → Bool
  | [], _ => true
  | _ :: _, [] => false
  | a :: as, b :: bs => a == b && leads as bs

/-- Substring test (String.prototype.includes). -/
def hasSub : Str → Str → Bool
  | pat, [] => pat == ([] : Str)
  | pat, c :: rest => leads pat (c :: rest) || hasSub pat rest

/-- Suffix test (String.prototype.endsWith). -/
def endsWithStr (s suf : Str) : Bool := leads suf.reverse s.reverse

/-- Decimal digit test. -/
def isDigitN (c : Nat) : Bool := 48 ≤ c && c ≤ 57

/-- ASCII letter test. -/
def isAlphaN (c : Nat) : Bool := (65 ≤ c && c ≤ 90) || (97 ≤ c && c ≤ 122)

/-- Upper-case hexadecimal digit for a nibble (used by percent-encoding). -/
def hexDigit (n : Nat) : Nat := if n < 10 then 48 + n else 55 + n

/-- Value of a hexadecimal digit code unit, if it is one. -/
def hexVal (c : Nat) : Option Nat :=
  if 48 ≤ c ∧ c ≤ 57 then some (c - 48)
  else if 65 ≤ c ∧ c ≤ 70 then some (c - 55)
  else if 97 ≤ c ∧ c ≤ 102 then some (c - 87)
  else none

/-- UTF-8 bytes of a code point (total; code points are below 0x110000 in
JavaScript, larger inputs only matter for totality). -/
def utf8Bytes (c : Nat) : List Nat :=
  if c < 128 then [c]
  else if c < 2048 then [192 + c / 64, 128 + c % 64]
  else if c < 65536 then [224 + c / 4096, 128 + c / 64 % 64, 128 + c % 64]
  else [240 + c / 262144, 128 + c / 4096 % 64, 128 + c / 64 % 64, 128 + c % 64]

/-- Percent escape of one byte. -/
def pctExpand (b : Nat) : Str := [37, hexDigit (b / 16), hexDigit (b % 16)]

/-- Characters the form serializer keeps verbatim: alphanumerics and
asterisk, hyphen, period, underscore. -/
def formSafe (c : Nat) : Bool :=
  isDigitN c || isAlphaN c || c == 42 || c == 45 || c == 46 || c == 95

/-- application/x-www-form-urlencoded serialization of one code point. -/
def formEncodeChar (c : Nat) : Str :=
  if c == 32 then [43]
  else if formSafe c then [c]
  else ((utf8Bytes c).map pctExpand).flatten

/-- application/x-www-form-urlencoded serialization of a string. -/
def formEncode : Str → Str
  | [] => []
  | c :: cs => formEncodeChar c ++ formEncode cs

/-- application/x-www-form-urlencoded decoding: plus to space, percent
escapes to bytes, malformed escapes kept verbatim. -/
def formDecode : Str → Str
  | [] => []
  | 37 :: h1 :: h2 :: rest =>
    match hexVal h1, hexVal h2 with
    | some a, some b => (16 * a + b) :: formDecode rest
    | _, _ => 37 :: formDecode (h1 :: h2 :: rest)
  | c :: rest => (if c == 43 then 32 else c) :: formDecode rest

/-- decodeURIComponent: percent escapes to bytes, failure (`none`, the JS
exception) on a malformed escape.  No plus handling. -/
def pctDecodeOpt : Str → Option Str
  | [] => some []
  | 37 :: h1 :: h2 :: rest =>
    match hexVal h1, hexVal h2 with
    | some a, some b => (pctDecodeOpt rest).map (fun t => (16 * a + b) :: t)
    | _, _ => none
  | 37 :: _ => none
  | c :: rest => (pctDecodeOpt rest).map (fun t => c :: t)

/-- Split a query body on ampersands (empty segments preserved here,
dropped by `parseForm`). -/
def splitAmp (l : Str) : List Str :=
  l.foldr (fun c acc => if c == 38 then [] :: acc else (c :: acc.headD []) :: acc.tail) [[]]

/-- Join query segments with ampersands. -/
def joinAmp : List Str → Str
  | [] => []
  | [x] => x
  | x :: xs => x ++ 38 :: joinAmp xs

/-- Split one query segment at the first equals sign and decode both sides. -/
def splitPairEq (seg : Str) : Str × Str :=
  (formDecode (seg.takeWhile (fun c => !(c == 61))),
   formDecode (((seg.dropWhile (fun c => !(c == 61)))).drop 1))

/-- Parse a query string (with or without its leading question mark) into
decoded name/value pairs, as URLSearchParams does. -/
def parseForm (search : Str) : List (Str × Str) :=
  let body := match search with
    | 63 :: t => t
    | s => s
  (splitAmp body).filterMap fun seg => if seg == ([] : Str) then none else some (splitPairEq seg)

/-- Serialize name/value pairs back to a `?`-prefixed query string, or the
empty string for no pairs (the URLSearchParams update steps). -/
def serializeForm (ps : List (Str × Str)) : Str :=
  match ps with
  | [] => []
  | _ => 63 :: joinAmp (ps.map fun kv => formEncode kv.1 ++ 61 :: formEncode kv.2)

/-- First value bound to a name (URLSearchParams.get, null as `none`). -/
def getFirst (ps : List (Str × Str)) (k : Str) : Option Str :=
  match ps.find? (fun kv => kv.1 == k) with
  | some kv => some kv.2
  | none => none

/-- Parsed URL record.  `search` keeps its leading `?`, `hash` its leading
`#`; both are empty when absent, as in the JavaScript URL class. -/
structure Url where
  scheme : Str
  host : Str
  pathname : Str
  search : Str
  hash : Str
  deriving DecidableEq, Repr

/-- Character class: not a colon. -/
def pNotColon (c : Nat) : Bool := !(c == 58)

/-- Character class: allowed to continue the authority. -/
def pAuth (c : Nat) : Bool := !(c == 47) && !(c == 63) && !(c == 35)

/-- Character class: allowed to continue the path. -/
def pPath (c : Nat) : Bool := !(c == 63) && !(c == 35)

/-- Character class: not a hash mark. -/
def pNotHash (c : Nat) : Bool := !(c == 35)

/-- Scheme continuation characters. -/
def schemeChar (c : Nat) : Bool := isAlphaN c || isDigitN c || c == 43 || c == 45 || c == 46

/-- Valid URL scheme: a letter followed by scheme characters. -/
def validScheme (s : Str) : Bool :=
  match s with
  | [] => false
  | c :: cs => isAlphaN c && cs.all schemeChar

/-- Build the URL record once scheme and authority have been cut off. -/
def mkUrl (sch auth r2 : Str) : Url :=
  let path := r2.takeWhile pPath
  let r3 := r2.dropWhile pPath
  { scheme := lowerStr sch
    host := lowerStr auth
    pathname := if path = [] then [47] else path
    search := r3.takeWhile pNotHash
    hash := r3.dropWhile pNotHash }

/-- Simplified absolute-URL parser (the `new URL(raw)` constructor;
`none` models the thrown TypeError). -/
def parseUrl (s : Str) : Option Url :=
  match s.dropWhile pNotColon with
  | 58 :: 47 :: 47 :: r =>
    if validScheme (s.takeWhile pNotColon) then
      if r.takeWhile pAuth = [] then none
      else some (mkUrl (s.takeWhile pNotColon) (r.takeWhile pAuth) (r.dropWhile pAuth))
    else none
  | _ => none

/-- URL serializer (URL.prototype.toString). -/
def urlToString (u : Url) : Str :=
  u.scheme ++ 58 :: 47 :: 47 :: (u.host ++ (u.pathname ++ (u.search ++ u.hash)))

/-- Origin of a parsed URL (scheme and authority). -/
def originOf (u : Url) : Str := u.scheme ++ 58 :: 47 :: 47 :: u.host

/-- URLSearchParams.get on the query of a parsed URL. -/
def getSearchParam (u : Url) (k : Str) : Option Str := getFirst (parseForm u.search) k

/-- URLSearchParams.delete on the query of a parsed URL, with the query
re-serialized as the URL class does on update. -/
def delParamUrl (u : Url) (k : Str) : Url :=
  { u with search := serializeForm ((parseForm u.search).filter fun kv => !(kv.1 == k)) }

/-- Fixed fallback target of the resolver (App.tsx line 37). -/
def fallbackUrl : Str := str "https://lab.flowodonto.com.br/login"

/-- stripTokenHash (App.tsx lines 13 to 24): drop the fragment when its
lower-cased text contains a token marker; unparseable input is returned
unchanged. -/
def stripTokenHash (s : Str) : Str :=
  match parseUrl s with
  | none => s
  | some u =>
    let h := lowerStr u.hash
    if hasSub (str "access_token=") h || hasSub (str "refresh_token=") h
        || hasSub (str "token_type=") h then
      urlToString { u with hash := [] }
    else urlToString u

/-- stripHash (App.tsx lines 26 to 34): drop any fragment; unparseable
input is returned unchanged. -/
def stripHash (s : Str) : Str :=
  match parseUrl s with
  | none => s
  | some u => urlToString { u with hash := [] }

/-- safeReturnTo (App.tsx lines 36 to 50): fallback for null, empty (falsy)
or unparseable input and for any host outside the trusted domain, else the
token-fragment-stripped serialization. -/
def safeReturnTo (raw : Option Str) : Str :=
  match raw with
  | none => fallbackUrl
  | some r =>
    if r = [] then fallbackUrl
    else
      match parseUrl r with
      | none => fallbackUrl
      | some u =>
        let host := lowerStr u.host
        if host == str "flowodonto.com.br" || endsWithStr host (str ".flowodonto.com.br") then
          stripTokenHash (urlToString u)
        else fallbackUrl

/-- stripLogoutParam (App.tsx lines 52 to 60): delete the logout query
parameter; unparseable input is returned unchanged. -/
def stripLogoutParam (s : Str) : Str :=
  match parseUrl s with
  | none => s
  | some u => urlToString (delParamUrl u (str "logout"))

/-- normalizeReturnTo (App.tsx lines 63 to 81): one unwrapping step of a
nested returnTo query parameter, decoded with decodeURIComponent and
falling back to the raw nested value when decoding throws.  The source
guard `if (!nested) return first` is on JS falsiness, so an absent and an
empty-valued nested parameter both leave the accepted target unchanged. -/
def normalizeReturnTo (raw : Option Str) : Str :=
  let first := safeReturnTo raw
  match parseUrl first with
  | none => first
  | some u =>
    match getSearchParam u (str "returnTo") with
    | none => first
    | some nested =>
      if nested = [] then first
      else
        let decoded := match pctDecodeOpt nested with
          | some d => d
          | none => nested
        safeReturnTo (some decoded)

/-- truthyParam (App.tsx lines 92 to 95). -/
def truthyParam (v : Option Str) : Bool :=
  let x := lowerStr (v.getD [])
  x == str "1" || x == str "true" || x == str "yes"

/-- Browser location visible to the component. -/
structure Location where
  origin : Str
  pathname : Str
  search : Str
  deriving DecidableEq, Repr

/-- isSamePage (App.tsx lines 83 to 90): same origin and path as the
current location; false for unparseable input. -/
def isSamePage (loc : Location) (s : Str) : Bool :=
  match parseUrl s with
  | none => false
  | some u => originOf u == loc.origin && u.pathname == loc.pathname

/-- isLogout (App.tsx lines 196 to 209): any of the four logout signals. -/
def isLogout (loc : Location) (rawReturnTo : Option Str) : Bool :=
  if truthyParam (getFirst (parseForm loc.search) (str "logout")) then true
  else if loc.pathname == str "/logout" then true
  else if (match parseUrl (safeReturnTo rawReturnTo) with
           | some u => truthyParam (getSearchParam u (str "logout"))
           | none => false) then true
  else
    let raw := rawReturnTo.getD []
    hasSub (str "logout%3D1") raw || hasSub (str "logout=1") raw

/-- Local/session storage: association list of key/value pairs. -/
abbrev Storage := List (Str × Str)

/-- clearSupabaseStorageKeys (App.tsx lines 97 to 108): remove every key
with the sb- prefix from one storage area. -/
def clearSb (m : Storage) : Storage := m.filter fun kv => !(leads (str "sb-") kv.1)

/-- Identity-provider session as used by the relay (SessionToken of the
spec).  Token fields are the UTF-8 bytes of the JS strings; expires_in is
the numeric expiry. -/
structure Session where
  access_token : Str
  refresh_token : Option Str
  expires_in : Option Nat
  deriving DecidableEq, Repr

/-- Characters encodeURIComponent keeps verbatim. -/
def uriSafe (c : Nat) : Bool :=
  isDigitN c || isAlphaN c || c == 45 || c == 95 || c == 46 || c == 33
    || c == 126 || c == 42 || c == 39 || c == 40 || c == 41

/-- encodeURIComponent over a byte string. -/
def encComp : Str → Str
  | [] => []
  | b :: t => (if uriSafe b then [b] else pctExpand b) ++ encComp t

/-- Decimal digits of a natural number, fueled recursion. -/
def natStrAux : Nat → Nat → Str
  | 0, _ => []
  | fuel + 1, n => if n < 10 then [48 + n] else natStrAux fuel (n / 10) ++ [48 + n % 10]

/-- Decimal representation, as the JS String(number) conversion. -/
def natStr (n : Nat) : Str := natStrAux (n + 1) n

/-- Handoff fragment built in redirectToAppWithSession (App.tsx lines 221
to 225): hash of the four percent-encoded fields, with the defaults of the
source (empty refresh token, expiry 3600, literal bearer). -/
def buildHash (s : Session) : Str :=
  35 :: (str "access_token=" ++ encComp s.access_token
    ++ 38 :: (str "refresh_token=" ++ encComp (s.refresh_token.getD [])
    ++ 38 :: (str "token_type=bearer"
    ++ 38 :: (str "expires_in=" ++ encComp (natStr (s.expires_in.getD 3600))))))

/-- Modelled from the spec: the downstream Protected-Route Gate that parses
the handoff fragment is not part of src/, so fragment parsing follows the
fragment contract of the spec: URLSearchParams over the text after the
leading hash mark. -/
def parseFragment (frag : Str) : List (Str × Str) :=
  let body := match frag with
    | 35 :: t => t
    | s => s
  (splitAmp body).filterMap fun seg => if seg == ([] : Str) then none else some (splitPairEq seg)

/-- Component state relevant to the claims: the redirecting latch and the
booting flag of the App component. -/
structure PageState where
  redirecting : Bool
  booting : Bool
  deriving DecidableEq, Repr

/-- BootState of the spec, derived from the component state exactly as the
render does: the spinner shows for redirecting or booting, the login form
otherwise. -/
inductive BootView where
  | Booting
  | Redirecting
  | ShowingLoginForm
  deriving DecidableEq, Repr

/-- View derived from the component state. -/
def viewOf (st : PageState) : BootView :=
  if st.redirecting then BootView.Redirecting
  else if st.booting then BootView.Booting
  else BootView.ShowingLoginForm

/-- Observable actions the effects perform on the outside world. -/
inductive Action where
  | signOut
  | clearStorage
  | navigate (target : Str)
  deriving DecidableEq, Repr

/-- Browser world affected by the actions. -/
structure World where
  localStore : Storage
  sessionStore : Storage
  navigations : List Str
  deriving DecidableEq, Repr

/-- Effect of one action on the world.  signOutCompat talks only to the
identity provider, so it leaves the browser world unchanged. -/
def applyAction (a : Action) (w : World) : World :=
  match a with
  | Action.signOut => w
  | Action.clearStorage =>
    { w with localStore := clearSb w.localStore, sessionStore := clearSb w.sessionStore }
  | Action.navigate t => { w with navigations := w.navigations ++ [t] }

/-- Run a list of actions on the world, in order. -/
def runActions (as : List Action) (w : World) : World := as.foldl (fun w a => applyAction a w) w

/-- Identity-provider capability as probed by the compat shims: the local
session getSessionCompat reports, and whether auth.getUser exists and
returns without error. -/
structure AuthEnv where
  session : Option Session
  hasGetUser : Bool
  getUserOk : Bool
  deriving DecidableEq, Repr

/-- getSessionCompat (App.tsx lines 115 to 126), modelled by its result. -/
def getSessionCompat (env : AuthEnv) : Option Session := env.session

/-- validateSessionServerCompat (App.tsx lines 128 to 136): when getUser
exists its error flag decides, otherwise false. -/
def validateSessionServerCompat (env : AuthEnv) : Bool :=
  if env.hasGetUser then env.getUserOk else false

/-- redirectToAppWithSession (App.tsx lines 211 to 229): no-op without a
session or when already redirecting; on a same-page target only booting is
cleared; otherwise the latch is set and one replacing navigation to the
stripped base plus the session hash is emitted. -/
def redirectToAppWithSession (loc : Location) (rt : Str) (session : Option Session)
    (st : PageState) : PageState × List Action :=
  match session with
  | none => (st, [])
  | some s =>
    if st.redirecting then (st, [])
    else
      let base := stripHash (stripTokenHash rt)
      if isSamePage loc base then ({ st with booting := false }, [])
      else ({ st with redirecting := true }, [Action.navigate (base ++ buildHash s)])

/-- Boot effect body (App.tsx lines 257 to 276): query the local session;
if present, gate on server validation, relaying on success and forcing
sign-out, storage clearing and the login form on failure; without a local
session just finish booting. -/
def bootEffect (env : AuthEnv) (loc : Location) (rt : Str) (st : PageState) :
    PageState × List Action :=
  match getSessionCompat env with
  | none => ({ st with booting := false }, [])
  | some s =>
    if validateSessionServerCompat env then
      redirectToAppWithSession loc rt (some s) st
    else
      ({ st with booting := false }, [Action.signOut, Action.clearStorage])

/-- Auth state change callback (App.tsx lines 278 to 294): SIGNED_IN and
TOKEN_REFRESHED re-run the server-validation gate before relaying;
INITIAL_SESSION and SIGNED_OUT only finish booting. -/
def authChangeEffect (env : AuthEnv) (loc : Location) (rt : Str) (event : Str)
    (session : Option Session) (st : PageState) : PageState × List Action :=
  if event == str "SIGNED_IN" || event == str "TOKEN_REFRESHED" then
    if validateSessionServerCompat env && session.isSome then
      redirectToAppWithSession loc rt session st
    else
      ({ st with booting := false }, [Action.signOut, Action.clearStorage])
  else if event == str "INITIAL_SESSION" || event == str "SIGNED_OUT" then
    ({ st with booting := false }, [])
  else (st, [])

/-- Logout effect body (App.tsx lines 234 to 246): set the latch, sign out,
clear storage, navigate to the cleaned target or to the site root when the
cleaned target is the current page. -/
def logoutEffect (loc : Location) (rt : Str) (st : PageState) : PageState × List Action :=
  let clean := stripHash (stripTokenHash (stripLogoutParam rt))
  ({ st with redirecting := true },
   [Action.signOut, Action.clearStorage,
    Action.navigate (if isSamePage loc clean then str "/" else clean)])

/-- Events that can drive the boot orchestration in one page load. -/
inductive BootEvent where
  | initialCheck
  | authChange (event : Str) (session : Option Session)
  deriving DecidableEq, Repr

/-- Dispatch one event. -/
def stepEvent (env : AuthEnv) (loc : Location) (rt : Str) (st : PageState) :
    BootEvent → PageState × List Action
  | BootEvent.initialCheck => bootEffect env loc rt st
  | BootEvent.authChange ev s => authChangeEffect env loc rt ev s st

/-- One event handled by the closures created at the mount render: the
handler body reads the redirecting latch captured at mount (the boot
effect never re-runs, so the session-change callback keeps that closure
for the whole page load), while its state writes land on the live
component state.  Inside these handlers setRedirecting is only ever
called with true and setBooting only with false, so the live state after
the event is the join of the previous live state with the writes. -/
def stepEventReact (env : AuthEnv) (loc : Location) (rt : Str) (mount : PageState)
    (live : PageState) (e : BootEvent) : PageState × List Action :=
  let r := stepEvent env loc rt { redirecting := mount.redirecting, booting := live.booting } e
  ({ redirecting := live.redirecting || r.1.redirecting, booting := r.1.booting }, r.2)

/-- Run a sequence of events through the mount-render closures, collecting
all actions. -/
def runEventsReact (env : AuthEnv) (loc : Location) (rt : Str) (mount : PageState) :
    PageState → List BootEvent → PageState × List Action
  | live, [] => (live, [])
  | live, e :: es =>
    let r := stepEventReact env loc rt mount live e
    let r2 := runEventsReact env loc rt mount r.1 es
    (r2.1, r.2 ++ r2.2)

/-- Number of navigations among a list of actions. -/
def navCount (as : List Action) : Nat :=
  (as.filter fun a => match a with
    | Action.navigate _ => true
    | _ => false).length

/-! Helper lemmas: takeWhile and dropWhile over decomposed lists. -/

theorem tw_all {p : Nat → Bool} : ∀ {l : Str}, (∀ c ∈ l, p c = true) → l.takeWhile p = l := by
  intro l h
  induction l with
  | nil => rfl
  | cons a t ih =>
    rw [List.takeWhile_cons_of_pos (h a (by simp))]
    rw [ih fun c hc => h c (by simp [hc])]

theorem dw_all {p : Nat → Bool} : ∀ {l : Str}, (∀ c ∈ l, p c = true) → l.dropWhile p = [] := by
  intro l h
  induction l with
  | nil => rfl
  | cons a t ih =>
    rw [List.dropWhile_cons_of_pos (h a (by simp))]
    exact ih fun c hc => h c (by simp [hc])

theorem tw_stop {p : Nat → Bool} :
    ∀ {a : Str} {b : Nat} {t : Str}, (∀ c ∈ a, p c = true) → p b = false →
      (a ++ b :: t).takeWhile p = a := by
  intro a b t ha hb
  induction a with
  | nil => simp [List.takeWhile_cons, hb]
  | cons x xs ih =>
    rw [List.cons_append, List.takeWhile_cons_of_pos (ha x (by simp))]
    rw [ih fun c hc => ha c (by simp [hc])]

theorem dw_stop {p : Nat → Bool} :
    ∀ {a : Str} {b : Nat} {t : Str}, (∀ c ∈ a, p c = true) → p b = false →
      (a ++ b :: t).dropWhile p = b :: t := by
  intro a b t ha hb
  induction a with
  | nil => simp [List.dropWhile_cons, hb]
  | cons x xs ih =>
    rw [List.cons_append, List.dropWhile_cons_of_pos (ha x (by simp))]
    exact ih fun c hc => ha c (by simp [hc])

theorem dw_head {p : Nat → Bool} :
    ∀ {l : Str} {c : Nat} {t : Str}, l.dropWhile p = c :: t → p c = false := by
  intro l
  induction l with
  | nil => intro c t h; simp at h
  | cons a as ih =>
    intro c t h
    by_cases hp : p a = true
    · rw [List.dropWhile_cons_of_pos hp] at h
      exact ih h
    · rw [List.dropWhile_cons_of_neg (by simp [hp])] at h
      cases h
      simpa using hp

theorem tw_head {p : Nat → Bool} {l : Str} {c : Nat} {t : Str}
    (h : l.takeWhile p = c :: t) : ∃ t2, l = c :: t2 ∧ p c = true := by
  cases l with
  | nil => simp at h
  | cons a as =>
    by_cases hp : p a = true
    · rw [List.takeWhile_cons_of_pos hp] at h
      obtain ⟨rfl, -⟩ := List.cons.inj h
      exact ⟨as, rfl, hp⟩
    · rw [List.takeWhile_cons_of_neg (by simp [hp])] at h
      simp at h

/-! Character-class conversions to arithmetic form. -/

theorem pAuth_iff {c : Nat} : pAuth c = true ↔ c ≠ 47 ∧ c ≠ 63 ∧ c ≠ 35 := by
  simp [pAuth, and_assoc]

theorem pPath_iff {c : Nat} : pPath c = true ↔ c ≠ 63 ∧ c ≠ 35 := by
  simp [pPath]

theorem pNotHash_iff {c : Nat} : pNotHash c = true ↔ c ≠ 35 := by
  simp [pNotHash]

theorem pNotColon_iff {c : Nat} : pNotColon c = true ↔ c ≠ 58 := by
  simp [pNotColon]

theorem isAlphaN_iff {c : Nat} : isAlphaN c = true ↔ (65 ≤ c ∧ c ≤ 90) ∨ (97 ≤ c ∧ c ≤ 122) := by
  simp [isAlphaN]

theorem isDigitN_iff {c : Nat} : isDigitN c = true ↔ 48 ≤ c ∧ c ≤ 57 := by
  simp [isDigitN]

theorem schemeChar_iff {c : Nat} :
    schemeChar c = true ↔
      ((65 ≤ c ∧ c ≤ 90) ∨ (97 ≤ c ∧ c ≤ 122)) ∨ (48 ≤ c ∧ c ≤ 57)
        ∨ c = 43 ∨ c = 45 ∨ c = 46 := by
  simp [schemeChar, isAlphaN, isDigitN, or_assoc]

theorem lowerChar_cases (c : Nat) :
    (lowerChar c = c ∧ ¬(65 ≤ c ∧ c ≤ 90)) ∨ (65 ≤ c ∧ c ≤ 90 ∧ lowerChar c = c + 32) := by
  unfold lowerChar
  split_ifs with h
  · right; exact ⟨h.1, h.2, rfl⟩
  · left; exact ⟨rfl, h⟩

theorem lowerChar_idem (c : Nat) : lowerChar (lowerChar c) = lowerChar c := by
  unfold lowerChar
  split_ifs <;> omega

theorem lowerStr_idem (s : Str) : lowerStr (lowerStr s) = lowerStr s := by
  unfold lowerStr
  rw [List.map_map]
  exact List.map_congr_left fun c _ => lowerChar_idem c

theorem pAuth_lower {c : Nat} (h : pAuth c = true) : pAuth (lowerChar c) = true := by
  rw [pAuth_iff] at h ⊢
  rcases lowerChar_cases c with ⟨he, _⟩ | ⟨h1, h2, he⟩ <;> rw [he] <;> omega

theorem schemeChar_lower {c : Nat} (h : schemeChar c = true) : schemeChar (lowerChar c) = true := by
  rw [schemeChar_iff] at h ⊢
  rcases lowerChar_cases c with ⟨he, _⟩ | ⟨h1, h2, he⟩ <;> rw [he] <;> omega

theorem isAlphaN_lower {c : Nat} (h : isAlphaN c = true) : isAlphaN (lowerChar c) = true := by
  rw [isAlphaN_iff] at h ⊢
  rcases lowerChar_cases c with ⟨he, _⟩ | ⟨h1, h2, he⟩ <;> rw [he] <;> omega

theorem validScheme_lower {s : Str} (h : validScheme s = true) :
    validScheme (lowerStr s) = true := by
  cases s with
  | nil => simp [validScheme] at h
  | cons c cs =>
    unfold validScheme at h ⊢
    rw [Bool.and_eq_true, List.all_eq_true] at h
    show (isAlphaN (lowerChar c) && (cs.map lowerChar).all schemeChar) = true
    rw [Bool.and_eq_true, List.all_eq_true]
    refine ⟨isAlphaN_lower h.1, ?_⟩
    intro x hx
    rcases List.mem_map.mp hx with ⟨a, ha, rfl⟩
    exact schemeChar_lower (h.2 a ha)

theorem validScheme_pNotColon {s : Str} (h : validScheme s = true) :
    ∀ c ∈ s, pNotColon c = true := by
  cases s with
  | nil => simp
  | cons c cs =>
    unfold validScheme at h
    rw [Bool.and_eq_true, List.all_eq_true] at h
    intro x hx
    rw [pNotColon_iff]
    rcases List.mem_cons.mp hx with rfl | hx2
    · rcases isAlphaN_iff.mp h.1 with h2 | h2 <;> omega
    · rcases schemeChar_iff.mp (h.2 x hx2) with h2 | h2 | h2 | h2 | h2 <;> omega

/-! Well-formedness of parsed URL records and the parse / serialize
round trip. -/

/-- Shape invariant every record produced by `parseUrl` satisfies, strong
enough to re-parse its serialization to the same record. -/
def WfUrl (u : Url) : Prop :=
  validScheme u.scheme = true ∧ lowerStr u.scheme = u.scheme ∧
  u.host ≠ [] ∧ lowerStr u.host = u.host ∧ (∀ c ∈ u.host, pAuth c = true) ∧
  (∃ p, u.pathname = 47 :: p) ∧ (∀ c ∈ u.pathname, pPath c = true) ∧
  (u.search = [] ∨ ∃ q, u.search = 63 :: q) ∧ (∀ c ∈ u.search, pNotHash c = true) ∧
  (u.hash = [] ∨ ∃ h, u.hash = 35 :: h)

theorem mkUrl_scheme (sch auth r2 : Str) : (mkUrl sch auth r2).scheme = lowerStr sch := rfl

theorem mkUrl_host (sch auth r2 : Str) : (mkUrl sch auth r2).host = lowerStr auth := rfl

theorem mkUrl_pathname (sch auth r2 : Str) :
    (mkUrl sch auth r2).pathname =
      (if r2.takeWhile pPath = [] then [47] else r2.takeWhile pPath) := rfl

theorem mkUrl_search (sch auth r2 : Str) :
    (mkUrl sch auth r2).search = (r2.dropWhile pPath).takeWhile pNotHash := rfl

theorem mkUrl_hash (sch auth r2 : Str) :
    (mkUrl sch auth r2).hash = (r2.dropWhile pPath).dropWhile pNotHash := rfl

theorem wf_mkUrl {sch auth r2 : Str} (hvs : validScheme sch = true) (hne : auth ≠ [])
    (hmem : ∀ c ∈ auth, pAuth c = true)
    (hr2 : ∀ c t, r2 = c :: t → pAuth c = false) : WfUrl (mkUrl sch auth r2) := by
  refine ⟨by rw [mkUrl_scheme]; exact validScheme_lower hvs,
    by rw [mkUrl_scheme]; exact lowerStr_idem sch,
    by rw [mkUrl_host]; simpa [lowerStr] using hne,
    by rw [mkUrl_host]; exact lowerStr_idem auth,
    ?_, ?_, ?_, ?_, ?_, ?_⟩
  · rw [mkUrl_host]
    intro c hc
    rcases List.mem_map.mp hc with ⟨a, ha, rfl⟩
    exact pAuth_lower (hmem a ha)
  · rw [mkUrl_pathname]
    rcases hP : r2.takeWhile pPath with _ | ⟨c, t⟩
    · exact ⟨[], by simp⟩
    · rcases tw_head hP with ⟨t2, he, hc⟩
      have hf : pAuth c = false := hr2 c t2 he
      have h47 : c = 47 := by
        rw [pPath_iff] at hc
        by_contra hne2
        exact (Bool.eq_false_iff.mp hf) (pAuth_iff.mpr ⟨hne2, hc.1, hc.2⟩)
      exact ⟨t, by simp [h47]⟩
  · rw [mkUrl_pathname]
    intro c hc
    rcases hP : r2.takeWhile pPath with _ | ⟨x, t⟩
    · rw [hP, if_pos rfl] at hc
      rcases List.mem_singleton.mp hc with rfl
      rw [pPath_iff]; omega
    · rw [hP, if_neg (by simp)] at hc
      exact List.mem_takeWhile_imp (hP ▸ hc)
  · rw [mkUrl_search]
    rcases hQ : (r2.dropWhile pPath).takeWhile pNotHash with _ | ⟨c, t⟩
    · exact Or.inl rfl
    · right
      rcases tw_head hQ with ⟨t2, he, hc⟩
      have hf : pPath c = false := dw_head he
      have h63 : c = 63 := by
        rw [pNotHash_iff] at hc
        by_contra hne2
        exact (Bool.eq_false_iff.mp hf) (pPath_iff.mpr ⟨hne2, hc⟩)
      exact ⟨t, by rw [h63]⟩
  · rw [mkUrl_search]
    intro c hc
    exact List.mem_takeWhile_imp hc
  · rw [mkUrl_hash]
    rcases hH : (r2.dropWhile pPath).dropWhile pNotHash with _ | ⟨c, t⟩
    · exact Or.inl rfl
    · right
      have hf : pNotHash c = false := dw_head hH
      have h35 : c = 35 := by
        by_contra hne2
        exact (Bool.eq_false_iff.mp hf) (pNotHash_iff.mpr hne2)
      exact ⟨t, by rw [h35]⟩

theorem parse_wf {s : Str} {u : Url} (h : parseUrl s = some u) : WfUrl u := by
  unfold parseUrl at h
  split at h
  · split_ifs at h with hvs hauth
    rcases Option.some.inj h with rfl
    exact wf_mkUrl hvs hauth (fun c hc => List.mem_takeWhile_imp hc) (fun c t he => dw_head he)
  · simp at h

theorem parse_toString {u : Url} (h : WfUrl u) : parseUrl (urlToString u) = some u := by
  obtain ⟨hvs, hsl, hh, hhl, hha, ⟨p0, hp⟩, hpa, hsearch, hsa, hhash⟩ := h
  obtain ⟨sch, host, path, search, hash⟩ := u
  simp only at hvs hsl hh hhl hha hp hpa hsearch hsa hhash
  subst hp
  unfold urlToString
  simp only
  have hD : (sch ++ 58 :: 47 :: 47 :: (host ++ (47 :: p0 ++ (search ++ hash)))).dropWhile
      pNotColon = 58 :: 47 :: 47 :: (host ++ (47 :: p0 ++ (search ++ hash))) :=
    dw_stop (validScheme_pNotColon hvs) (by simp [pNotColon])
  have hT : (sch ++ 58 :: 47 :: 47 :: (host ++ (47 :: p0 ++ (search ++ hash)))).takeWhile
      pNotColon = sch :=
    tw_stop (validScheme_pNotColon hvs) (by simp [pNotColon])
  have hA : (host ++ (47 :: p0 ++ (search ++ hash))).takeWhile pAuth = host := by
    have : host ++ (47 :: p0 ++ (search ++ hash)) = host ++ 47 :: (p0 ++ (search ++ hash)) := by
      simp
    rw [this]
    exact tw_stop hha (by simp [pAuth])
  have hA2 : (host ++ (47 :: p0 ++ (search ++ hash))).dropWhile pAuth =
      47 :: (p0 ++ (search ++ hash)) := by
    have : host ++ (47 :: p0 ++ (search ++ hash)) = host ++ 47 :: (p0 ++ (search ++ hash)) := by
      simp
    rw [this]
    exact dw_stop hha (by simp [pAuth])
  unfold parseUrl
  rw [hD, hT]
  simp only [hvs, reduceIte, hA, hA2]
  rw [if_neg hh]
  have hPath : (47 :: (p0 ++ (search ++ hash))).takeWhile pPath = 47 :: p0 ∧
      (47 :: (p0 ++ (search ++ hash))).dropWhile pPath = search ++ hash := by
    rcases hsearch with rfl | ⟨q, rfl⟩
    · rcases hhash with rfl | ⟨hs, rfl⟩
      · constructor
        · simp only [List.append_nil]
          exact tw_all hpa
        · simp only [List.append_nil]
          exact dw_all hpa
      · constructor
        · rw [show 47 :: (p0 ++ ([] ++ 35 :: hs)) = (47 :: p0) ++ 35 :: hs by simp]
          exact tw_stop hpa (by simp [pPath])
        · rw [show 47 :: (p0 ++ ([] ++ 35 :: hs)) = (47 :: p0) ++ 35 :: hs by simp]
          rw [dw_stop hpa (by simp [pPath])]
          simp
    · constructor
      · rw [show 47 :: (p0 ++ (63 :: q ++ hash)) = (47 :: p0) ++ 63 :: (q ++ hash) by simp]
        exact tw_stop hpa (by simp [pPath])
      · rw [show 47 :: (p0 ++ (63 :: q ++ hash)) = (47 :: p0) ++ 63 :: (q ++ hash) by simp]
        rw [dw_stop hpa (by simp [pPath])]
        simp
  have hSH : (search ++ hash).takeWhile pNotHash = search ∧
      (search ++ hash).dropWhile pNotHash = hash := by
    rcases hhash with rfl | ⟨hs, rfl⟩
    · constructor
      · simp only [List.append_nil]
        exact tw_all hsa
      · simp only [List.append_nil]
        exact dw_all hsa
    · exact ⟨tw_stop hsa (by simp [pNotHash]), dw_stop hsa (by simp [pNotHash])⟩
  unfold mkUrl
  simp only [hPath.1, hPath.2, hSH.1, hSH.2]
  rw [if_neg (by simp), hsl, hhl]

theorem parse_isSome_toString {u : Url} (h : WfUrl u) :
    parseUrl (urlToString u) = some u := parse_toString h

theorem wf_set_hash {u : Url} (h : WfUrl u) : WfUrl { u with hash := [] } := by
  obtain ⟨h1, h2, h3, h4, h5, h6, h7, h8, h9, _⟩ := h
  exact ⟨h1, h2, h3, h4, h5, h6, h7, h8, h9, Or.inl rfl⟩

theorem stripHash_of_parse {s : Str} {u : Url} (h : parseUrl s = some u) :
    stripHash s = urlToString { u with hash := [] } := by
  unfold stripHash
  rw [h]

theorem stripTokenHash_of_parse {s : Str} {u : Url} (h : parseUrl s = some u) :
    ∃ v, stripTokenHash s = urlToString v ∧ v.search = u.search ∧
      (v = u ∨ v = { u with hash := [] }) ∧ (WfUrl u → WfUrl v) := by
  unfold stripTokenHash
  rw [h]
  simp only
  split_ifs with hm
  · exact ⟨{ u with hash := [] }, rfl, rfl, Or.inr rfl, fun hw => wf_set_hash hw⟩
  · exact ⟨u, rfl, rfl, Or.inl rfl, fun hw => hw⟩

theorem safeReturnTo_parses (raw : Option Str) :
    ∃ u, parseUrl (safeReturnTo raw) = some u ∧ WfUrl u := by
  have hfb : ∃ u, parseUrl fallbackUrl = some u ∧ WfUrl u := by
    rcases hF : parseUrl fallbackUrl with _ | u
    · exact absurd hF (by decide)
    · exact ⟨u, rfl, parse_wf hF⟩
  rcases raw with _ | r
  · simpa [safeReturnTo] using hfb
  · simp only [safeReturnTo]
    split_ifs with hemp
    · exact hfb
    · rcases hP : parseUrl r with _ | u
      · simp only [hP]
        exact hfb
      · simp only [hP]
        split_ifs with hallow
        · have hw : WfUrl u := parse_wf hP
          have hu : parseUrl (urlToString u) = some u := parse_toString hw
          rcases stripTokenHash_of_parse hu with ⟨v, hv, -, -, hwv⟩
          exact ⟨v, by rw [hv]; exact parse_toString (hwv hw), hwv hw⟩
        · exact hfb

theorem normalizeReturnTo_parses (raw : Option Str) :
    ∃ u, parseUrl (normalizeReturnTo raw) = some u ∧ WfUrl u := by
  rcases safeReturnTo_parses raw with ⟨u, hu, hw⟩
  simp only [normalizeReturnTo, hu]
  rcases getSearchParam u (str "returnTo") with _ | nested
  · exact ⟨u, hu, hw⟩
  · simp only
    by_cases hne : nested = []
    · rw [if_pos hne]
      exact ⟨u, hu, hw⟩
    · rw [if_neg hne]
      exact safeReturnTo_parses _

/-! Form-encoding lemmas: character sets, splitting and joining. -/

theorem hexDigit_lower_bound (n : Nat) : 48 ≤ hexDigit n := by
  unfold hexDigit
  split_ifs <;> omega

theorem hexDigit_avoid (n : Nat) : hexDigit n ≠ 35 ∧ hexDigit n ≠ 38 ∧ hexDigit n ≠ 61 := by
  unfold hexDigit
  split_ifs <;> omega

theorem mem_pctExpand {c b : Nat} (h : c ∈ pctExpand b) :
    c = 37 ∨ c = hexDigit (b / 16) ∨ c = hexDigit (b % 16) := by
  simpa [pctExpand] using h

theorem pctExpand_avoid {c b : Nat} (h : c ∈ pctExpand b) : c ≠ 35 ∧ c ≠ 38 ∧ c ≠ 61 := by
  rcases mem_pctExpand h with rfl | rfl | rfl
  · omega
  · exact hexDigit_avoid _
  · exact hexDigit_avoid _

theorem formSafe_avoid {c : Nat} (h : formSafe c = true) : c ≠ 35 ∧ c ≠ 38 ∧ c ≠ 61 := by
  simp only [formSafe, Bool.or_eq_true, beq_iff_eq, isDigitN_iff, isAlphaN_iff] at h
  omega

theorem formEncodeChar_avoid {c x : Nat} (h : c ∈ formEncodeChar x) :
    c ≠ 35 ∧ c ≠ 38 ∧ c ≠ 61 := by
  unfold formEncodeChar at h
  split_ifs at h with h32 hsafe
  · rcases List.mem_singleton.mp h with rfl
    omega
  · rcases List.mem_singleton.mp h with rfl
    exact formSafe_avoid hsafe
  · rcases List.mem_flatten.mp h with ⟨l, hl, hc⟩
    rcases List.mem_map.mp hl with ⟨b, -, rfl⟩
    exact pctExpand_avoid hc

theorem formEncode_avoid {c : Nat} : ∀ {s : Str}, c ∈ formEncode s → c ≠ 35 ∧ c ≠ 38 ∧ c ≠ 61 := by
  intro s h
  induction s with
  | nil => simp [formEncode] at h
  | cons x xs ih =>
    rw [show formEncode (x :: xs) = formEncodeChar x ++ formEncode xs from rfl] at h
    rcases List.mem_append.mp h with h2 | h2
    · exact formEncodeChar_avoid h2
    · exact ih h2

theorem uriSafe_avoid {c : Nat} (h : uriSafe c = true) : c ≠ 35 ∧ c ≠ 38 ∧ c ≠ 61 := by
  simp only [uriSafe, Bool.or_eq_true, beq_iff_eq, isDigitN_iff, isAlphaN_iff] at h
  omega

theorem encComp_avoid {c : Nat} : ∀ {s : Str}, c ∈ encComp s → c ≠ 35 ∧ c ≠ 38 ∧ c ≠ 61 := by
  intro s h
  induction s with
  | nil => simp [encComp] at h
  | cons b bs ih =>
    rw [show encComp (b :: bs) = (if uriSafe b then [b] else pctExpand b) ++ encComp bs from rfl]
      at h
    rcases List.mem_append.mp h with h2 | h2
    · split_ifs at h2 with hs
      · rcases List.mem_singleton.mp h2 with rfl
        exact uriSafe_avoid hs
      · exact pctExpand_avoid h2
    · exact ih h2

theorem joinAmp_mem {c : Nat} : ∀ {segs : List Str}, c ∈ joinAmp segs →
    c = 38 ∨ ∃ x ∈ segs, c ∈ x := by
  intro segs h
  induction segs with
  | nil => simp [joinAmp] at h
  | cons x xs ih =>
    cases xs with
    | nil =>
      right
      exact ⟨x, by simp, by simpa [joinAmp] using h⟩
    | cons y ys =>
      rw [show joinAmp (x :: y :: ys) = x ++ 38 :: joinAmp (y :: ys) from rfl] at h
      rcases List.mem_append.mp h with h2 | h2
      · exact Or.inr ⟨x, by simp, h2⟩
      · rcases List.mem_cons.mp h2 with rfl | h3
        · exact Or.inl rfl
        · rcases ih h3 with h4 | ⟨z, hz, hc⟩
          · exact Or.inl h4
          · exact Or.inr ⟨z, by simp [hz], hc⟩

theorem serializeForm_shape (ps : List (Str × Str)) :
    serializeForm ps = [] ∨
      (∃ b, serializeForm ps = 63 :: b ∧ ∀ c ∈ b, pNotHash c = true) := by
  cases ps with
  | nil => exact Or.inl rfl
  | cons p pt =>
    right
    refine ⟨joinAmp ((p :: pt).map fun kv => formEncode kv.1 ++ 61 :: formEncode kv.2), by rfl, ?_⟩
    intro c hc
    rw [pNotHash_iff]
    rcases joinAmp_mem hc with rfl | ⟨x, hx, hcx⟩
    · omega
    · rcases List.mem_map.mp hx with ⟨kv, -, rfl⟩
      rcases List.mem_append.mp hcx with h2 | h2
      · exact (formEncode_avoid h2).1
      · rcases List.mem_cons.mp h2 with rfl | h3
        · omega
        · exact (formEncode_avoid h3).1

theorem wf_delParam {u : Url} (h : WfUrl u) (k : Str) : WfUrl (delParamUrl u k) := by
  obtain ⟨h1, h2, h3, h4, h5, h6, h7, _, _, h10⟩ := h
  refine ⟨h1, h2, h3, h4, h5, h6, h7, ?_, ?_, h10⟩
  · rcases serializeForm_shape ((parseForm u.search).filter fun kv => !(kv.1 == k)) with hs | ⟨b, hs, -⟩
    · exact Or.inl hs
    · exact Or.inr ⟨b, hs⟩
  · intro c hc
    rcases serializeForm_shape ((parseForm u.search).filter fun kv => !(kv.1 == k)) with hs | ⟨b, hs, hmem⟩
    · simp only [delParamUrl, hs] at hc
      simp at hc
    · simp only [delParamUrl, hs] at hc
      rcases List.mem_cons.mp hc with rfl | h3
      · rw [pNotHash_iff]; omega
      · exact hmem c h3

/-! splitAmp computation lemmas. -/

theorem splitAmp_nil : splitAmp [] = [[]] := rfl

theorem splitAmp_cons (c : Nat) (l : Str) :
    splitAmp (c :: l) =
      (if c == 38 then [] :: splitAmp l
       else (c :: (splitAmp l).headD []) :: (splitAmp l).tail) := rfl

theorem splitAmp_no38 : ∀ {a : Str}, (∀ c ∈ a, c ≠ 38) → splitAmp a = [a] := by
  intro a h
  induction a with
  | nil => rfl
  | cons c t ih =>
    rw [splitAmp_cons, if_neg (by simpa using h c (by simp))]
    rw [ih fun x hx => h x (by simp [hx])]
    rfl

theorem splitAmp_append {a : Str} (r : Str) (h : ∀ c ∈ a, c ≠ 38) :
    splitAmp (a ++ 38 :: r) = a :: splitAmp r := by
  induction a with
  | nil => simp [splitAmp_cons]
  | cons c t ih =>
    rw [List.cons_append, splitAmp_cons, if_neg (by simpa using h c (by simp))]
    rw [ih fun x hx => h x (by simp [hx])]
    rfl

theorem splitAmp_joinAmp : ∀ {segs : List Str}, segs ≠ [] →
    (∀ x ∈ segs, ∀ c ∈ x, c ≠ 38) → splitAmp (joinAmp segs) = segs := by
  intro segs hne h
  induction segs with
  | nil => exact absurd rfl hne
  | cons x xs ih =>
    cases xs with
    | nil =>
      rw [show joinAmp [x] = x from rfl]
      exact splitAmp_no38 (h x (by simp))
    | cons y ys =>
      rw [show joinAmp (x :: y :: ys) = x ++ 38 :: joinAmp (y :: ys) from rfl]
      rw [splitAmp_append _ (h x (by simp))]
      rw [ih (by simp) fun z hz => h z (by simp [hz])]

/-! Percent-decoding of percent-encoded text. -/

theorem formDecode_pct {h1 h2 a b : Nat} {r : Str} (ha : hexVal h1 = some a)
    (hb : hexVal h2 = some b) :
    formDecode (37 :: h1 :: h2 :: r) = (16 * a + b) :: formDecode r := by
  simp [formDecode, ha, hb]

theorem formDecode_pct_bad1 {h1 h2 : Nat} {r : Str} (ha : hexVal h1 = none) :
    formDecode (37 :: h1 :: h2 :: r) = 37 :: formDecode (h1 :: h2 :: r) := by
  simp [formDecode, ha]

theorem formDecode_lit {c : Nat} {r : Str} (hc : c ≠ 37) :
    formDecode (c :: r) = (if c == 43 then 32 else c) :: formDecode r := by
  rcases r with _ | ⟨x, r2⟩
  · simp [formDecode, hc]
  · rcases r2 with _ | ⟨y, r3⟩
    · simp [formDecode, hc]
    · simp [formDecode, hc]

theorem hexVal_hexDigit {n : Nat} (h : n < 16) : hexVal (hexDigit n) = some n := by
  interval_cases n <;> decide

theorem hexVal_hexDigit_big {k : Nat} (h : 16 ≤ k) :
    hexVal (hexDigit k) = none ∨ ∃ a, hexVal (hexDigit k) = some a ∧ 10 ≤ a := by
  have hd : hexDigit k = 55 + k := by
    unfold hexDigit
    rw [if_neg (by omega)]
  rw [hd]
  unfold hexVal
  split_ifs with c1 c2 c3
  · omega
  · omega
  · exact Or.inr ⟨55 + k - 87, rfl, by omega⟩
  · exact Or.inl rfl

theorem formSafe_not_pct_plus {c : Nat} (h : formSafe c = true) : c ≠ 37 ∧ c ≠ 43 := by
  simp only [formSafe, Bool.or_eq_true, beq_iff_eq, isDigitN_iff, isAlphaN_iff] at h
  omega

theorem uriSafe_not_pct_plus {c : Nat} (h : uriSafe c = true) : c ≠ 37 ∧ c ≠ 43 := by
  simp only [uriSafe, Bool.or_eq_true, beq_iff_eq, isDigitN_iff, isAlphaN_iff] at h
  omega

theorem formDecode_encChar_low {x : Nat} (hx : x < 128) (r : Str) :
    formDecode (formEncodeChar x ++ r) = x :: formDecode r := by
  unfold formEncodeChar
  split_ifs with h32 hsafe
  · have hx32 : x = 32 := by simpa using h32
    rw [List.cons_append, List.nil_append, formDecode_lit (by omega)]
    rw [hx32]
    rfl
  · have hne := formSafe_not_pct_plus hsafe
    rw [List.cons_append, List.nil_append, formDecode_lit hne.1]
    rw [if_neg (by simpa using hne.2)]
  · have hb : utf8Bytes x = [x] := by
      unfold utf8Bytes
      rw [if_pos hx]
    rw [hb]
    have he : ((([x]).map pctExpand).flatten) ++ r =
        37 :: hexDigit (x / 16) :: hexDigit (x % 16) :: r := by
      simp [pctExpand]
    rw [he, formDecode_pct (hexVal_hexDigit (by omega)) (hexVal_hexDigit (by omega))]
    have : 16 * (x / 16) + x % 16 = x := by omega
    rw [this]

theorem formDecode_formEncode_low {s : Str} (h : ∀ c ∈ s, c < 128) (r : Str) :
    formDecode (formEncode s ++ r) = s ++ formDecode r := by
  induction s with
  | nil => rfl
  | cons x xs ih =>
    rw [show formEncode (x :: xs) = formEncodeChar x ++ formEncode xs from rfl,
      List.append_assoc, formDecode_encChar_low (h x (by simp)), List.cons_append]
    rw [ih fun c hc => h c (by simp [hc])]

theorem utf8Bytes_head_high {x : Nat} (hx : 128 ≤ x) :
    ∃ b0 bs, utf8Bytes x = b0 :: bs ∧ 192 ≤ b0 := by
  unfold utf8Bytes
  split_ifs with c1 c2 c3
  · omega
  · exact ⟨192 + x / 64, _, rfl, by omega⟩
  · exact ⟨224 + x / 4096, _, rfl, by omega⟩
  · exact ⟨240 + x / 262144, _, rfl, by omega⟩

theorem formSafe_lt {c : Nat} (h : formSafe c = true) : c < 128 := by
  simp only [formSafe, Bool.or_eq_true, beq_iff_eq, isDigitN_iff, isAlphaN_iff] at h
  omega

theorem formDecode_encChar_high {x : Nat} (hx : 128 ≤ x) (r : Str) :
    ∃ d t2, formDecode (formEncodeChar x ++ r) = d :: t2 ∧ (d = 37 ∨ 128 ≤ d) := by
  rcases utf8Bytes_head_high hx with ⟨b0, bs, hb, hb0⟩
  have hsafe : formSafe x = false :=
    Bool.eq_false_iff.mpr fun h => by have := formSafe_lt h; omega
  have henc : formEncodeChar x ++ r =
      37 :: hexDigit (b0 / 16) :: hexDigit (b0 % 16) :: ((bs.map pctExpand).flatten ++ r) := by
    unfold formEncodeChar
    rw [if_neg (by simp; omega), if_neg (by simp [hsafe]), hb]
    simp [pctExpand]
  rw [henc]
  by_cases hb256 : b0 < 256
  · rw [formDecode_pct (hexVal_hexDigit (by omega)) (hexVal_hexDigit (by omega))]
    exact ⟨16 * (b0 / 16) + b0 % 16, _, rfl, Or.inr (by omega)⟩
  · have hk : 16 ≤ b0 / 16 := by omega
    rcases hexVal_hexDigit_big hk with hno | ⟨a, hsome, ha⟩
    · rw [formDecode_pct_bad1 hno]
      exact ⟨37, _, rfl, Or.inl rfl⟩
    · rw [formDecode_pct hsome (hexVal_hexDigit (by omega))]
      exact ⟨16 * a + b0 % 16, _, rfl, Or.inr (by omega)⟩

theorem formEncode_decode_eq_ascii : ∀ {n t : Str}, (∀ c ∈ t, c < 128 ∧ c ≠ 37) →
    formDecode (formEncode n) = t → n = t := by
  intro n
  induction n with
  | nil =>
    intro t _ h
    rw [show formEncode [] = [] from rfl] at h
    exact h
  | cons x xs ih =>
    intro t ht h
    rw [show formEncode (x :: xs) = formEncodeChar x ++ formEncode xs from rfl] at h
    by_cases hx : x < 128
    · rw [formDecode_encChar_low hx] at h
      cases t with
      | nil => simp at h
      | cons y ys =>
        obtain ⟨rfl, h2⟩ := List.cons.inj h
        rw [ih (fun c hc => ht c (by simp [hc])) h2]
    · push_neg at hx
      rcases formDecode_encChar_high hx (formEncode xs) with ⟨d, t2, hd, hcase⟩
      rw [hd] at h
      cases t with
      | nil => simp at h
      | cons y ys =>
        obtain ⟨rfl, -⟩ := List.cons.inj h
        have hy := ht d (by simp)
        rcases hcase with rfl | hge
        · exact absurd rfl hy.2
        · omega

theorem splitPairEq_enc (k v : Str) :
    splitPairEq (formEncode k ++ 61 :: formEncode v) =
      (formDecode (formEncode k), formDecode (formEncode v)) := by
  unfold splitPairEq
  have hk : ∀ c ∈ formEncode k, (!(c == 61)) = true := fun c hc => by
    simpa using (formEncode_avoid hc).2.2
  rw [tw_stop hk (by simp), dw_stop hk (by simp)]
  simp

theorem filterMap_enc (l : List (Str × Str)) :
    (l.map fun kv => formEncode kv.1 ++ 61 :: formEncode kv.2).filterMap
      (fun seg => if seg == ([] : Str) then none else some (splitPairEq seg)) =
      l.map fun kv => (formDecode (formEncode kv.1), formDecode (formEncode kv.2)) := by
  induction l with
  | nil => rfl
  | cons p pt ih =>
    rw [List.map_cons, List.filterMap_cons]
    rw [if_neg (by simp)]
    rw [splitPairEq_enc, ih, List.map_cons]

theorem parseForm_serializeForm (ps : List (Str × Str)) :
    parseForm (serializeForm ps) =
      ps.map fun kv => (formDecode (formEncode kv.1), formDecode (formEncode kv.2)) := by
  cases ps with
  | nil => rfl
  | cons p pt =>
    have hsegs : ∀ x ∈ (p :: pt).map (fun kv => formEncode kv.1 ++ 61 :: formEncode kv.2),
        ∀ c ∈ x, c ≠ 38 := by
      intro x hx c hc
      rcases List.mem_map.mp hx with ⟨kv, -, rfl⟩
      rcases List.mem_append.mp hc with h2 | h2
      · exact (formEncode_avoid h2).2.1
      · rcases List.mem_cons.mp h2 with rfl | h3
        · omega
        · exact (formEncode_avoid h3).2.1
    have hP : parseForm (serializeForm (p :: pt)) =
        (splitAmp (joinAmp ((p :: pt).map fun kv => formEncode kv.1 ++ 61 :: formEncode kv.2))).filterMap
          (fun seg => if seg == ([] : Str) then none else some (splitPairEq seg)) := rfl
    rw [hP, splitAmp_joinAmp (by simp) hsegs]
    exact filterMap_enc (p :: pt)

theorem getSearchParam_delParam (u : Url) :
    getSearchParam (delParamUrl u (str "logout")) (str "logout") = none := by
  have hP : parseForm (delParamUrl u (str "logout")).search =
      ((parseForm u.search).filter fun kv => !(kv.1 == str "logout")).map
        (fun kv => (formDecode (formEncode kv.1), formDecode (formEncode kv.2))) :=
    parseForm_serializeForm _
  have hnone : (((parseForm u.search).filter fun kv => !(kv.1 == str "logout")).map
      (fun kv => (formDecode (formEncode kv.1), formDecode (formEncode kv.2)))).find?
        (fun kv => kv.1 == str "logout") = none := by
    rw [List.find?_eq_none]
    intro x hx
    rcases List.mem_map.mp hx with ⟨kv, hkv, rfl⟩
    have hne : kv.1 ≠ str "logout" := by
      have := (List.mem_filter.mp hkv).2
      simpa using this
    simp only [beq_iff_eq]
    intro heq
    exact hne (formEncode_decode_eq_ascii (by decide) heq)
  unfold getSearchParam getFirst
  rw [hP, hnone]

/-! State-machine lemmas: the redirecting latch. -/

theorem navCount_nil : navCount [] = 0 := rfl

theorem navCount_append (a b : List Action) : navCount (a ++ b) = navCount a + navCount b := by
  simp [navCount, List.filter_append]

theorem redirect_latch_true {loc : Location} {rt : Str} {s : Option Session} {st : PageState}
    (h : st.redirecting = true) : redirectToAppWithSession loc rt s st = (st, []) := by
  cases s <;> simp [redirectToAppWithSession, h]

theorem redirect_cases (loc : Location) (rt : Str) (s : Option Session) (st : PageState) :
    ((redirectToAppWithSession loc rt s st).1.redirecting = st.redirecting ∧
      navCount (redirectToAppWithSession loc rt s st).2 = 0) ∨
    (st.redirecting = false ∧ (redirectToAppWithSession loc rt s st).1.redirecting = true ∧
      navCount (redirectToAppWithSession loc rt s st).2 = 1) := by
  cases s with
  | none => exact Or.inl (by simp [redirectToAppWithSession, navCount])
  | some sess =>
    rcases hr : st.redirecting with _ | _
    · by_cases hsp : isSamePage loc (stripHash (stripTokenHash rt)) = true
      · exact Or.inl (by simp [redirectToAppWithSession, hr, hsp, navCount])
      · refine Or.inr ⟨rfl, ?_, ?_⟩
        · simp [redirectToAppWithSession, hr, hsp]
        · simp [redirectToAppWithSession, hr, hsp, navCount]
    · exact Or.inl (by simp [redirectToAppWithSession, hr, navCount])

theorem step_latch (env : AuthEnv) (loc : Location) (rt : Str) (st : PageState) (e : BootEvent) :
    (st.redirecting = true → (stepEvent env loc rt st e).1.redirecting = true ∧
      navCount (stepEvent env loc rt st e).2 = 0) ∧
    (st.redirecting = false →
      ((stepEvent env loc rt st e).1.redirecting = false ∧
        navCount (stepEvent env loc rt st e).2 = 0) ∨
      ((stepEvent env loc rt st e).1.redirecting = true ∧
        navCount (stepEvent env loc rt st e).2 = 1)) := by
  cases e with
  | initialCheck =>
    have hse : stepEvent env loc rt st BootEvent.initialCheck = bootEffect env loc rt st := rfl
    rw [hse]
    rcases henv : env.session with _ | s
    · constructor
      · intro h
        constructor
        · simpa [bootEffect, getSessionCompat, henv] using h
        · simp [bootEffect, getSessionCompat, henv, navCount]
      · intro h
        exact Or.inl ⟨by simpa [bootEffect, getSessionCompat, henv] using h,
          by simp [bootEffect, getSessionCompat, henv, navCount]⟩
    · by_cases hv : validateSessionServerCompat env = true
      · have hbe : bootEffect env loc rt st = redirectToAppWithSession loc rt (some s) st := by
          simp [bootEffect, getSessionCompat, henv, hv]
        rw [hbe]
        constructor
        · intro h
          rw [redirect_latch_true h]
          exact ⟨h, rfl⟩
        · intro h
          rcases redirect_cases loc rt (some s) st with ⟨h1, h2⟩ | ⟨-, h1, h2⟩
          · exact Or.inl ⟨h ▸ h1, h2⟩
          · exact Or.inr ⟨h1, h2⟩
      · have hv2 : validateSessionServerCompat env = false := by
          cases hvv : validateSessionServerCompat env
          · rfl
          · exact absurd hvv hv
        have hbe : bootEffect env loc rt st =
            ({ st with booting := false }, [Action.signOut, Action.clearStorage]) := by
          simp [bootEffect, getSessionCompat, henv, hv2]
        rw [hbe]
        constructor
        · intro h
          exact ⟨h, rfl⟩
        · intro h
          exact Or.inl ⟨h, rfl⟩
  | authChange ev s =>
    have hse : stepEvent env loc rt st (BootEvent.authChange ev s) =
        authChangeEffect env loc rt ev s st := rfl
    rw [hse]
    unfold authChangeEffect
    split_ifs with h1 h2 h3
    · constructor
      · intro h
        rw [redirect_latch_true h]
        exact ⟨h, rfl⟩
      · intro h
        rcases redirect_cases loc rt s st with ⟨ha, hb⟩ | ⟨-, ha, hb⟩
        · exact Or.inl ⟨h ▸ ha, hb⟩
        · exact Or.inr ⟨ha, hb⟩
    · exact ⟨fun h => ⟨h, rfl⟩, fun h => Or.inl ⟨h, rfl⟩⟩
    · exact ⟨fun h => ⟨h, rfl⟩, fun h => Or.inl ⟨h, rfl⟩⟩
    · exact ⟨fun h => ⟨h, rfl⟩, fun h => Or.inl ⟨h, rfl⟩⟩

theorem step_nav_le_one (env : AuthEnv) (loc : Location) (rt : Str) (st : PageState)
    (e : BootEvent) : navCount (stepEvent env loc rt st e).2 ≤ 1 := by
  rcases hr : st.redirecting with _ | _
  · rcases (step_latch env loc rt st e).2 hr with ⟨-, h⟩ | ⟨-, h⟩ <;> omega
  · have h := ((step_latch env loc rt st e).1 hr).2
    omega

/-! Boot and logout effect computations shared by several claims. -/

theorem bootEffect_invalid {env : AuthEnv} (loc : Location) (rt : Str) (st : PageState)
    (hs : env.session.isSome = true) (hv : validateSessionServerCompat env = false) :
    bootEffect env loc rt st =
      ({ st with booting := false }, [Action.signOut, Action.clearStorage]) := by
  rcases henv : env.session with _ | s
  · rw [henv] at hs
    simp at hs
  · simp [bootEffect, getSessionCompat, henv, hv]

theorem clearSb_clean (l : Storage) : ∀ kv ∈ clearSb l, leads (str "sb-") kv.1 = false := by
  intro kv hkv
  have := (List.mem_filter.mp hkv).2
  simpa using this

theorem runActions_signout_clear (w : World) :
    runActions [Action.signOut, Action.clearStorage] w =
      { w with localStore := clearSb w.localStore, sessionStore := clearSb w.sessionStore } := rfl

/-! Fragment codec lemmas. -/

theorem getSearchParam_congr {u v : Url} (h : u.search = v.search) (k : Str) :
    getSearchParam u k = getSearchParam v k := by
  unfold getSearchParam
  rw [h]

theorem splitPairEq_mk {k v : Str} (hk : ∀ c ∈ k, c ≠ 61) :
    splitPairEq (k ++ 61 :: v) = (formDecode k, formDecode v) := by
  unfold splitPairEq
  have hk2 : ∀ c ∈ k, (!(c == 61)) = true := fun c hc => by simpa using hk c hc
  rw [tw_stop hk2 (by simp), dw_stop hk2 (by simp)]
  simp

theorem formDecode_encComp {bs : Str} (h : ∀ b ∈ bs, b < 256) :
    formDecode (encComp bs) = bs := by
  induction bs with
  | nil => rfl
  | cons b t ih =>
    rw [show encComp (b :: t) = (if uriSafe b then [b] else pctExpand b) ++ encComp t from rfl]
    split_ifs with hs
    · have hne := uriSafe_not_pct_plus hs
      rw [List.cons_append, List.nil_append, formDecode_lit hne.1,
        if_neg (by simpa using hne.2)]
      rw [ih fun c hc => h c (by simp [hc])]
    · have hb : b < 256 := h b (by simp)
      rw [show pctExpand b ++ encComp t =
        37 :: hexDigit (b / 16) :: hexDigit (b % 16) :: encComp t from rfl]
      rw [formDecode_pct (hexVal_hexDigit (by omega)) (hexVal_hexDigit (by omega))]
      rw [ih fun c hc => h c (by simp [hc])]
      have : 16 * (b / 16) + b % 16 = b := by omega
      rw [this]

theorem natStrAux_digits : ∀ (fuel n : Nat), ∀ c ∈ natStrAux fuel n, 48 ≤ c ∧ c ≤ 57 := by
  intro fuel
  induction fuel with
  | zero => intro n c hc; simp [natStrAux] at hc
  | succ f ih =>
    intro n c hc
    unfold natStrAux at hc
    split_ifs at hc with h10
    · rcases List.mem_singleton.mp hc with rfl
      omega
    · rcases List.mem_append.mp hc with h2 | h2
      · exact ih (n / 10) c h2
      · rcases List.mem_singleton.mp h2 with rfl
        omega

theorem natStr_digits (n : Nat) : ∀ c ∈ natStr n, 48 ≤ c ∧ c ≤ 57 :=
  natStrAux_digits (n + 1) n

theorem natStr_bytes (n : Nat) : ∀ c ∈ natStr n, c < 256 := by
  intro c hc
  have := natStr_digits n c hc
  omega

theorem parseFragment_buildHash (s : Session) (h1 : ∀ b ∈ s.access_token, b < 256)
    (h2 : ∀ b ∈ s.refresh_token.getD [], b < 256) :
    parseFragment (buildHash s) =
      [(str "access_token", s.access_token),
       (str "refresh_token", s.refresh_token.getD []),
       (str "token_type", str "bearer"),
       (str "expires_in", natStr (s.expires_in.getD 3600))] := by
  have hbody : parseFragment (buildHash s) =
      (splitAmp (str "access_token=" ++ (encComp s.access_token
        ++ 38 :: (str "refresh_token=" ++ (encComp (s.refresh_token.getD [])
        ++ 38 :: (str "token_type=bearer"
        ++ 38 :: (str "expires_in=" ++ encComp (natStr (s.expires_in.getD 3600))))))))).filterMap
        (fun seg => if seg == ([] : Str) then none else some (splitPairEq seg)) := rfl
  have hl1 : ∀ c ∈ str "access_token=", c ≠ 38 := by decide
  have hl2 : ∀ c ∈ str "refresh_token=", c ≠ 38 := by decide
  have hl4 : ∀ c ∈ str "expires_in=", c ≠ 38 := by decide
  have hno1 : ∀ c ∈ str "access_token=" ++ encComp s.access_token, c ≠ 38 := by
    intro c hc
    rcases List.mem_append.mp hc with hm | hm
    · exact hl1 c hm
    · exact (encComp_avoid hm).2.1
  have hno2 : ∀ c ∈ str "refresh_token=" ++ encComp (s.refresh_token.getD []), c ≠ 38 := by
    intro c hc
    rcases List.mem_append.mp hc with hm | hm
    · exact hl2 c hm
    · exact (encComp_avoid hm).2.1
  have hno3 : ∀ c ∈ str "token_type=bearer", c ≠ 38 := by decide
  have hno4 : ∀ c ∈ str "expires_in=" ++ encComp (natStr (s.expires_in.getD 3600)), c ≠ 38 := by
    intro c hc
    rcases List.mem_append.mp hc with hm | hm
    · exact hl4 c hm
    · exact (encComp_avoid hm).2.1
  rw [hbody]
  rw [show str "access_token=" ++ (encComp s.access_token ++ 38 :: (str "refresh_token="
      ++ (encComp (s.refresh_token.getD []) ++ 38 :: (str "token_type=bearer"
      ++ 38 :: (str "expires_in=" ++ encComp (natStr (s.expires_in.getD 3600))))))) =
    (str "access_token=" ++ encComp s.access_token) ++ 38 :: ((str "refresh_token="
      ++ encComp (s.refresh_token.getD [])) ++ 38 :: (str "token_type=bearer"
      ++ 38 :: (str "expires_in=" ++ encComp (natStr (s.expires_in.getD 3600))))) by
    simp [List.append_assoc]]
  rw [splitAmp_append _ hno1, splitAmp_append _ hno2, splitAmp_append _ hno3,
    splitAmp_no38 hno4]
  rw [List.filterMap_cons, List.filterMap_cons, List.filterMap_cons, List.filterMap_cons,
    List.filterMap_nil]
  rw [if_neg (by simp [List.append_eq_nil, show str "access_token=" ≠ ([] : Str) by decide])]
  rw [if_neg (by simp [List.append_eq_nil, show str "refresh_token=" ≠ ([] : Str) by decide])]
  rw [if_neg (by decide)]
  rw [if_neg (by simp [List.append_eq_nil, show str "expires_in=" ≠ ([] : Str) by decide])]
  rw [show str "access_token=" ++ encComp s.access_token =
    str "access_token" ++ 61 :: encComp s.access_token by
      rw [show str "access_token=" = str "access_token" ++ [61] by decide]
      simp]
  rw [show str "refresh_token=" ++ encComp (s.refresh_token.getD []) =
    str "refresh_token" ++ 61 :: encComp (s.refresh_token.getD []) by
      rw [show str "refresh_token=" = str "refresh_token" ++ [61] by decide]
      simp]
  rw [show str "expires_in=" ++ encComp (natStr (s.expires_in.getD 3600)) =
    str "expires_in" ++ 61 :: encComp (natStr (s.expires_in.getD 3600)) by
      rw [show str "expires_in=" = str "expires_in" ++ [61] by decide]
      simp]
  rw [splitPairEq_mk (by decide), splitPairEq_mk (by decide), splitPairEq_mk (by decide)]
  rw [show splitPairEq (str "token_type=bearer") = (str "token_type", str "bearer") by decide]
  rw [formDecode_encComp h1, formDecode_encComp h2, formDecode_encComp (natStr_bytes _)]
  rw [show formDecode (str "access_token") = str "access_token" by decide]
  rw [show formDecode (str "refresh_token") = str "refresh_token" by decide]
  rw [show formDecode (str "expires_in") = str "expires_in" by decide]

/-! Claim theorems. -/

/-- Claim C1: when the identity provider reports an existing local session
but server validation fails, the boot sequencer emits exactly sign-out then
storage-clear, every sb-prefixed client storage key is removed, no
navigation is issued, the latch never becomes Redirecting, and the page
settles on the login form. -/
theorem boot_invalid_session_clears_and_shows_login (env : AuthEnv) (loc : Location)
    (rt : Str) (st : PageState) (w : World)
    (hsess : env.session.isSome = true) (hv : validateSessionServerCompat env = false)
    (hr : st.redirecting = false) :
    bootEffect env loc rt st =
      ({ st with booting := false }, [Action.signOut, Action.clearStorage]) ∧
    (bootEffect env loc rt st).1.redirecting = false ∧
    viewOf (bootEffect env loc rt st).1 = BootView.ShowingLoginForm ∧
    (runActions (bootEffect env loc rt st).2 w).navigations = w.navigations ∧
    (∀ kv ∈ (runActions (bootEffect env loc rt st).2 w).localStore,
      leads (str "sb-") kv.1 = false) ∧
    (∀ kv ∈ (runActions (bootEffect env loc rt st).2 w).sessionStore,
      leads (str "sb-") kv.1 = false) := by
  have hbe := bootEffect_invalid loc rt st hsess hv
  refine ⟨hbe, ?_, ?_, ?_, ?_, ?_⟩
  · rw [hbe]
    exact hr
  · rw [hbe]
    simp [viewOf, hr]
  · rw [hbe]
    rfl
  · rw [hbe, runActions_signout_clear]
    exact clearSb_clean w.localStore
  · rw [hbe, runActions_signout_clear]
    exact clearSb_clean w.sessionStore

/-- Witness for C1 at a concrete environment, location and storage. -/
theorem boot_invalid_session_witness :
    bootEffect ⟨some ⟨str "tok", none, none⟩, true, false⟩
      ⟨str "https://auth.flowodonto.com.br", str "/", []⟩ fallbackUrl ⟨false, true⟩ =
      ({ redirecting := false, booting := false }, [Action.signOut, Action.clearStorage]) :=
  (boot_invalid_session_clears_and_shows_login ⟨some ⟨str "tok", none, none⟩, true, false⟩
    ⟨str "https://auth.flowodonto.com.br", str "/", []⟩ fallbackUrl ⟨false, true⟩
    ⟨[], [], []⟩ rfl rfl rfl).1

/-- Claim C2: any parseable raw value whose hostname is neither the trusted
root domain nor a dot-separated subdomain of it resolves to exactly the
fixed fallback URL. -/
theorem safeReturnTo_untrusted_fallback (raw : Str) (u : Url)
    (hp : parseUrl raw = some u)
    (hall : (lowerStr u.host == str "flowodonto.com.br"
      || endsWithStr (lowerStr u.host) (str ".flowodonto.com.br")) = false) :
    safeReturnTo (some raw) = fallbackUrl := by
  have hne : raw ≠ [] := by
    intro h
    rw [h] at hp
    simp [show parseUrl ([] : Str) = none from rfl] at hp
  simp only [safeReturnTo]
  rw [if_neg hne]
  simp only [hp]
  rw [if_neg (by simp [hall])]

/-- Witness for C2 at an untrusted host. -/
theorem safeReturnTo_untrusted_witness :
    safeReturnTo (some (str "https://evil.com/x")) = fallbackUrl :=
  safeReturnTo_untrusted_fallback (str "https://evil.com/x")
    ⟨str "https", str "evil.com", str "/x", [], []⟩ (by decide) (by decide)

/-- Claim C3 counterexample: the boot body and the session-change callback
read the redirecting latch captured by the mount-render closure, which
stays false, so an initial valid session check followed by a
TOKEN_REFRESHED event in quick succession issues two navigations. -/
theorem two_navigations_on_duplicate_triggers :
    navCount (runEventsReact ⟨some ⟨str "tok", none, none⟩, true, true⟩
      ⟨str "https://auth.flowodonto.com.br", str "/", []⟩
      (str "https://lab.flowodonto.com.br/app")
      ⟨false, true⟩ ⟨false, true⟩
      [BootEvent.initialCheck,
       BootEvent.authChange (str "TOKEN_REFRESHED") (some ⟨str "tok", none, none⟩)]).2 = 2 := by
  decide

/-- Claim C3 as amended: each boot-completion or session-change handler
invocation issues at most one navigation, so across a page load the
number of navigations is bounded by the number of trigger events; the
redirecting latch read by the handlers is the mount-render closure value,
so it does not serialize navigations across distinct events. -/
theorem navigations_bounded_by_trigger_events (env : AuthEnv) (loc : Location) (rt : Str)
    (mount : PageState) :
    (∀ (live : PageState) (e : BootEvent),
      navCount (stepEventReact env loc rt mount live e).2 ≤ 1) ∧
    ∀ (live : PageState) (es : List BootEvent),
      navCount (runEventsReact env loc rt mount live es).2 ≤ es.length := by
  constructor
  · intro live e
    exact step_nav_le_one env loc rt _ e
  · intro live es
    induction es generalizing live with
    | nil => simp [runEventsReact, navCount]
    | cons e es ih =>
      have hre : runEventsReact env loc rt mount live (e :: es) =
          ((runEventsReact env loc rt mount (stepEventReact env loc rt mount live e).1 es).1,
            (stepEventReact env loc rt mount live e).2 ++
              (runEventsReact env loc rt mount (stepEventReact env loc rt mount live e).1 es).2) :=
        rfl
      rw [hre]
      simp only [navCount_append, List.length_cons]
      have h1 : navCount (stepEventReact env loc rt mount live e).2 ≤ 1 :=
        step_nav_le_one env loc rt _ e
      have h2 := ih (stepEventReact env loc rt mount live e).1
      omega

/-- Claim C5: the resolver is total; for null and for every string input,
including unparseable ones, the result parses as an absolute URL (all
failures inside collapse to the fallback by construction). -/
theorem resolve_total (raw : Option Str) :
    (parseUrl (normalizeReturnTo raw)).isSome = true := by
  rcases normalizeReturnTo_parses raw with ⟨u, hu, -⟩
  rw [hu]
  rfl

/-- Claim C6: with a validated session whose relay target is the page the
Auth Hub is showing, the orchestrator does not navigate and the state
becomes ShowingLoginForm. -/
theorem same_page_session_shows_login (env : AuthEnv) (loc : Location) (rt : Str)
    (st : PageState) (s : Session)
    (hsess : env.session = some s) (hv : validateSessionServerCompat env = true)
    (hr : st.redirecting = false)
    (hsp : isSamePage loc (stripHash (stripTokenHash rt)) = true) :
    bootEffect env loc rt st = ({ st with booting := false }, []) ∧
    viewOf (bootEffect env loc rt st).1 = BootView.ShowingLoginForm := by
  have hbe : bootEffect env loc rt st = ({ st with booting := false }, []) := by
    simp [bootEffect, getSessionCompat, hsess, hv, redirectToAppWithSession, hr, hsp]
  refine ⟨hbe, ?_⟩
  rw [hbe]
  simp [viewOf, hr]

/-- Witness for C6 at a concrete same-page target. -/
theorem same_page_witness :
    bootEffect ⟨some ⟨str "tok", none, none⟩, true, true⟩
      ⟨str "https://auth.flowodonto.com.br", str "/", []⟩
      (str "https://auth.flowodonto.com.br/") ⟨false, true⟩ =
      ({ redirecting := false, booting := false }, []) :=
  (same_page_session_shows_login ⟨some ⟨str "tok", none, none⟩, true, true⟩
    ⟨str "https://auth.flowodonto.com.br", str "/", []⟩
    (str "https://auth.flowodonto.com.br/") ⟨false, true⟩ ⟨str "tok", none, none⟩
    rfl rfl rfl (by decide)).1

/-- Claim C10: without a getUser method server validation is false for
every environment, so a boot that finds a local session always signs out,
clears storage, issues no navigation and shows the login form. -/
theorem no_getuser_never_relays (env : AuthEnv) (hg : env.hasGetUser = false) :
    validateSessionServerCompat env = false ∧
    ∀ (loc : Location) (rt : Str) (st : PageState) (s : Session),
      env.session = some s → st.redirecting = false →
      bootEffect env loc rt st =
        ({ st with booting := false }, [Action.signOut, Action.clearStorage]) ∧
      navCount (bootEffect env loc rt st).2 = 0 ∧
      viewOf (bootEffect env loc rt st).1 = BootView.ShowingLoginForm := by
  have hv : validateSessionServerCompat env = false := by
    simp [validateSessionServerCompat, hg]
  refine ⟨hv, ?_⟩
  intro loc rt st s hsess hr
  have hbe := bootEffect_invalid loc rt st (by rw [hsess]; rfl) hv
  refine ⟨hbe, by rw [hbe]; rfl, by rw [hbe]; simp [viewOf, hr]⟩

/-- Witness for C10 at a concrete getUser-free environment. -/
theorem no_getuser_witness :
    validateSessionServerCompat ⟨some ⟨str "tok", none, none⟩, false, true⟩ = false :=
  (no_getuser_never_relays ⟨some ⟨str "tok", none, none⟩, false, true⟩ rfl).1

/-- Actions of the logout effect applied to a world. -/
theorem runActions_logout (t : Str) (w : World) :
    runActions [Action.signOut, Action.clearStorage, Action.navigate t] w =
      { localStore := clearSb w.localStore, sessionStore := clearSb w.sessionStore,
        navigations := w.navigations ++ [t] } := rfl

/-- Claim C4 counterexample: with two levels of returnTo nesting the
resolver still returns a target carrying a returnTo query parameter, so
nesting is not unwrapped to arbitrary depth. -/
theorem normalizeReturnTo_keeps_nested_returnTo :
    Option.bind
      (parseUrl (normalizeReturnTo (some (str
        "https://flowodonto.com.br/a?returnTo=https%3A%2F%2Fflowodonto.com.br%2Fb%3FreturnTo%3Dhttps%253A%252F%252Fflowodonto.com.br%252Fc"))))
      (fun u => getSearchParam u (str "returnTo")) =
      some (str "https://flowodonto.com.br/c") := by decide

/-- Claim C4 as amended: the resolver unwraps exactly one level of
nonempty returnTo nesting, substituting the percent-decoded nested value
(or the raw nested value when decoding fails) resolved through the same
host validation; an absent or empty nested value leaves the accepted
target unchanged, and deeper nesting is left in place. -/
theorem normalizeReturnTo_one_level (raw : Option Str) (u : Url) (nested : Str)
    (hp : parseUrl (safeReturnTo raw) = some u)
    (hn : getSearchParam u (str "returnTo") = some nested) (hne : nested ≠ []) :
    normalizeReturnTo raw = safeReturnTo (some ((pctDecodeOpt nested).getD nested)) := by
  simp only [normalizeReturnTo, hp, hn]
  rw [if_neg hne]
  rcases hd : pctDecodeOpt nested with _ | d <;> simp [hd, Option.getD]

/-- Witness for the amended C4 at one level of nesting. -/
theorem normalizeReturnTo_one_level_witness :
    normalizeReturnTo
      (some (str "https://flowodonto.com.br/a?returnTo=https%3A%2F%2Flab.flowodonto.com.br%2Fx")) =
      safeReturnTo (some ((pctDecodeOpt (str "https://lab.flowodonto.com.br/x")).getD
        (str "https://lab.flowodonto.com.br/x"))) :=
  normalizeReturnTo_one_level _
    ⟨str "https", str "flowodonto.com.br", str "/a",
      str "?returnTo=https%3A%2F%2Flab.flowodonto.com.br%2Fx", []⟩
    (str "https://lab.flowodonto.com.br/x") (by decide) (by decide) (by decide)

/-- Claim C7: under logout intent the logout flow sets the latch, signs
out, clears every sb-prefixed storage key, and issues one replacing
navigation to the cleaned target, which always parses with no fragment and
no logout parameter, or to the site root when the cleaned target is the
current page. -/
theorem logout_flow_clean (raw : Option Str) (loc : Location) (st : PageState) (w : World)
    (_hlg : isLogout loc raw = true) :
    (logoutEffect loc (normalizeReturnTo raw) st).1.redirecting = true ∧
    (logoutEffect loc (normalizeReturnTo raw) st).2 =
      [Action.signOut, Action.clearStorage,
        Action.navigate
          (if isSamePage loc (stripHash (stripTokenHash (stripLogoutParam (normalizeReturnTo raw))))
           then str "/"
           else stripHash (stripTokenHash (stripLogoutParam (normalizeReturnTo raw))))] ∧
    (∃ u, parseUrl (stripHash (stripTokenHash (stripLogoutParam (normalizeReturnTo raw)))) =
      some u ∧ u.hash = [] ∧ getSearchParam u (str "logout") = none) ∧
    (∀ kv ∈ (runActions (logoutEffect loc (normalizeReturnTo raw) st).2 w).localStore,
      leads (str "sb-") kv.1 = false) ∧
    (∀ kv ∈ (runActions (logoutEffect loc (normalizeReturnTo raw) st).2 w).sessionStore,
      leads (str "sb-") kv.1 = false) := by
  rcases normalizeReturnTo_parses raw with ⟨u0, hu0, hw0⟩
  have hsl : stripLogoutParam (normalizeReturnTo raw) =
      urlToString (delParamUrl u0 (str "logout")) := by
    simp only [stripLogoutParam, hu0]
  have hw1 : WfUrl (delParamUrl u0 (str "logout")) := wf_delParam hw0 _
  have hp1 : parseUrl (urlToString (delParamUrl u0 (str "logout"))) =
      some (delParamUrl u0 (str "logout")) := parse_toString hw1
  rcases stripTokenHash_of_parse hp1 with ⟨v, hv, hvs, -, hwv⟩
  have hw2 : WfUrl v := hwv hw1
  have hp2 : parseUrl (urlToString v) = some v := parse_toString hw2
  have hsh : stripHash (urlToString v) = urlToString { v with hash := [] } :=
    stripHash_of_parse hp2
  have hw3 : WfUrl { v with hash := [] } := wf_set_hash hw2
  refine ⟨rfl, rfl, ?_, ?_, ?_⟩
  · refine ⟨{ v with hash := [] }, ?_, rfl, ?_⟩
    · rw [hsl, hv, hsh]
      exact parse_toString hw3
    · rw [getSearchParam_congr (show ({ v with hash := [] } : Url).search =
        (delParamUrl u0 (str "logout")).search from hvs) (str "logout")]
      exact getSearchParam_delParam u0
  · rw [show (logoutEffect loc (normalizeReturnTo raw) st).2 =
      [Action.signOut, Action.clearStorage,
        Action.navigate
          (if isSamePage loc (stripHash (stripTokenHash (stripLogoutParam (normalizeReturnTo raw))))
           then str "/"
           else stripHash (stripTokenHash (stripLogoutParam (normalizeReturnTo raw))))] from rfl]
    rw [runActions_logout]
    exact clearSb_clean w.localStore
  · rw [show (logoutEffect loc (normalizeReturnTo raw) st).2 =
      [Action.signOut, Action.clearStorage,
        Action.navigate
          (if isSamePage loc (stripHash (stripTokenHash (stripLogoutParam (normalizeReturnTo raw))))
           then str "/"
           else stripHash (stripTokenHash (stripLogoutParam (normalizeReturnTo raw))))] from rfl]
    rw [runActions_logout]
    exact clearSb_clean w.sessionStore

/-- Witness for C7 at the dedicated logout path. -/
theorem logout_flow_witness :
    (logoutEffect ⟨str "https://auth.flowodonto.com.br", str "/logout", []⟩
      (normalizeReturnTo (some (str "https://lab.flowodonto.com.br/app?logout=1")))
      ⟨false, true⟩).1.redirecting = true :=
  (logout_flow_clean (some (str "https://lab.flowodonto.com.br/app?logout=1"))
    ⟨str "https://auth.flowodonto.com.br", str "/logout", []⟩ ⟨false, true⟩ ⟨[], [], []⟩
    (by decide)).1

/-- Claim C8: logout intent holds exactly when one of the four signals
does: a truthy top-level logout parameter, the dedicated logout path, a
truthy logout parameter in the query of the resolved return target, or a
logout substring in the raw returnTo value. -/
theorem isLogout_iff (loc : Location) (raw : Option Str) :
    isLogout loc raw = true ↔
      truthyParam (getFirst (parseForm loc.search) (str "logout")) = true ∨
      loc.pathname = str "/logout" ∨
      (∃ u, parseUrl (safeReturnTo raw) = some u ∧
        truthyParam (getSearchParam u (str "logout")) = true) ∨
      hasSub (str "logout=1") (raw.getD []) = true ∨
      hasSub (str "logout%3D1") (raw.getD []) = true := by
  rcases safeReturnTo_parses raw with ⟨u, hu, -⟩
  simp only [isLogout, hu]
  split_ifs with h1 h2 h3
  · exact iff_of_true rfl (Or.inl h1)
  · exact iff_of_true rfl (Or.inr (Or.inl (by simpa using h2)))
  · exact iff_of_true rfl (Or.inr (Or.inr (Or.inl ⟨u, rfl, h3⟩)))
  · constructor
    · intro h
      rcases (by simpa using h :
          hasSub (str "logout%3D1") (raw.getD []) = true ∨
          hasSub (str "logout=1") (raw.getD []) = true) with h4 | h4
      · exact Or.inr (Or.inr (Or.inr (Or.inr h4)))
      · exact Or.inr (Or.inr (Or.inr (Or.inl h4)))
    · intro h
      rcases h with h4 | h4 | h4 | h4 | h4
      · exact absurd h4 h1
      · exact absurd (by simpa using h4) h2
      · rcases h4 with ⟨u2, hu2, ht⟩
        rcases Option.some.inj hu2 with rfl
        exact absurd ht h3
      · simp [h4]
      · simp [h4]

/-- Claim C9: parsing the fragment built from a session returns the
original access token, the refresh token or empty default, the literal
bearer token type, and the expiry or its 3600 default. -/
theorem fragment_roundtrip (s : Session)
    (h1 : ∀ b ∈ s.access_token, b < 256) (h2 : ∀ b ∈ s.refresh_token.getD [], b < 256) :
    getFirst (parseFragment (buildHash s)) (str "access_token") = some s.access_token ∧
    getFirst (parseFragment (buildHash s)) (str "refresh_token") =
      some (s.refresh_token.getD []) ∧
    getFirst (parseFragment (buildHash s)) (str "token_type") = some (str "bearer") ∧
    getFirst (parseFragment (buildHash s)) (str "expires_in") =
      some (natStr (s.expires_in.getD 3600)) := by
  rw [parseFragment_buildHash s h1 h2]
  exact ⟨rfl, rfl, rfl, rfl⟩

/-- Witness for C9 at a concrete session with both optional fields set. -/
theorem fragment_roundtrip_witness :
    getFirst (parseFragment (buildHash ⟨str "tok en", some (str "r/t"), some 7200⟩))
      (str "access_token") = some (str "tok en") :=
  (fragment_roundtrip ⟨str "tok en", some (str "r/t"), some 7200⟩ (by decide) (by decide)).1

end AuthHub
